import Mathlib

/-!
Verification development for the `mp3merge-audiobooks` batch tool
(`mp3merge-audiobooks.py`).  The program walks a directory tree, classifies
each directory as a flat multi-part audiobook or a CD-split audiobook,
merges the parts with an external concatenation tool, deletes the originals
on success, and records finished books in a persisted name-to-boolean map.

The embedding below models:
  * the filesystem as a finite tree of named directories with file lists;
  * `os.walk(base, topdown=True)` together with the `dirs[:] = []` pruning
    as a mutual recursion over that tree;
  * the Python `dict` holding processed books as an insertion-ordered
    association list;
  * the external tool (`ffmpeg`) as an oracle: a function from a merge job
    to the Bool "exit status zero";
  * the effects of a run as an explicit `ScanState`: the processed map, the
    multiset of deleted file paths, and the ordered list of merge attempts;
  * `merge_mp3_files` / `generate_filelist_file` additionally at the level
    of filesystem events (write manifest, run tool, remove manifest).
File paths are lists of path components, rooted at the walk's base.
-/

namespace Mp3Merge

/-- A file path, as the list of its components. -/
abbrev Path := List String

/-- The processed-books mapping: a Python `dict` from book-directory base
name to a Bool flag, modelled as an insertion-ordered association list with
unique keys. -/
abbrev BookDict := List (String × Bool)

/-- Python `str.endswith(suffix)` for the ASCII names appearing here. -/
def strEndsWith (s suffix : String) : Bool := suffix.data.isSuffixOf s.data

/-- Python `str.lower()` (ASCII letters, which is all the scan compares). -/
def strLower (s : String) : String := ⟨s.data.map Char.toLower⟩

/-- Python `str.startswith(p)`. -/
def strStartsWith (s p : String) : Bool := p.data.isPrefixOf s.data

/-- Python `s.replace('\\', '/')`: single-character replacement is a
character-wise map. -/
def strReplaceBackslash (s : String) : String :=
  ⟨s.data.map (fun c => if c = '\\' then '/' else c)⟩

/-- Membership test `book_title in processed_books` on the dict. -/
def dictMem (d : BookDict) (k : String) : Bool := (d.lookup k).isSome

/-- Python `d[k] = v`: update in place when the key exists, else append
(dicts preserve insertion order). -/
def dictSet (d : BookDict) (k : String) (v : Bool) : BookDict :=
  if dictMem d k then d.map (fun p => if p.1 == k then (k, v) else p)
  else d ++ [(k, v)]

/-- Model of `load_processed_books` (source lines 13-23): returns the parsed mapping
when the state file exists and the empty mapping when it does not.  The
argument models the state file: `none` when `os.path.exists` is false,
`some m` for an existing file parsing to `m`. -/
def load_processed_books (stateFile : Option BookDict) : BookDict :=
  match stateFile with
  | some m => m
  | none => []

/-- A directory: its base name, the files directly inside it, and its child
directories, in listing order. -/
inductive FsDir : Type where
  | node (name : String) (files : List String) (subs : List FsDir)

/-- Base name of a directory. -/
def FsDir.name : FsDir → String
  | .node n _ _ => n

/-- Files directly inside a directory. -/
def FsDir.files : FsDir → List String
  | .node _ f _ => f

/-- Child directories of a directory. -/
def FsDir.subs : FsDir → List FsDir
  | .node _ _ s => s

/-- The CD-folder test of source line 52: `d.lower().startswith('cd')`. -/
def isCdDir (d : FsDir) : Bool := strStartsWith (strLower d.name) "cd"

mutual

/-- Source lines 56-58: `os.walk(cd_folder)` over the subtree rooted at a
directory, collecting every file whose name ends in `.mp3`, in walk order
(the directory's own files first, then each child subtree in order).
`path` is the path of the parent; the directory's own path is
`path ++ [name]`. -/
def collectMp3 (path : Path) : FsDir → List Path
  | .node name files subs =>
      ((files.filter (fun f => strEndsWith f ".mp3")).map
          (fun f => path ++ [name, f]))
        ++ collectMp3List (path ++ [name]) subs

/-- Function `collectMp3` applied over a list of sibling directories, in order. -/
def collectMp3List (path : Path) : List FsDir → List Path
  | [] => []
  | d :: ds => collectMp3 path d ++ collectMp3List path ds

end

/-- One invocation of `merge_mp3_files` as the scan records it: the ordered
input list, the output directory, the book title, and whether the external
tool reported success. -/
structure MergeAttempt where
  inputs : List Path
  outDir : Path
  title : String
  success : Bool
deriving DecidableEq

/-- The mutable state of one run of `scan_for_mp3_books`: the processed
map, every file path deleted so far, and every merge attempt so far, in
order. -/
structure ScanState where
  processed : BookDict
  deleted : List Path
  attempts : List MergeAttempt
deriving DecidableEq

/-- The external concatenation tool, abstracted: given the merge job
(inputs, output folder, title) it reports whether its exit status was
zero. -/
abbrev Oracle := List Path → Path → String → Bool

/-- A single quote character, for the manifest lines. -/
def singleQuote : String := ⟨[Char.ofNat 39]⟩

/-- Join path components with the platform separator, as `os.path.join`
produces the strings the manifest writes. -/
def pathStr (sep : String) : Path → String
  | [] => ""
  | [x] => x
  | x :: xs => x ++ sep ++ pathStr sep xs

/-- One line written by `generate_filelist_file` (source lines 115-117):
`file '<path with backslashes replaced by forward slashes>'` plus a
newline. -/
def filelistLine (sep : String) (p : Path) : String :=
  "file " ++ singleQuote ++ strReplaceBackslash (pathStr sep p)
    ++ singleQuote ++ "\n"

/-- Concatenation of a list of strings, as successive `write` calls build
the file's content. -/
def strJoin : List String → String
  | [] => ""
  | s :: ss => s ++ strJoin ss

/-- Model of `generate_filelist_file` (source lines 106-117): the full content of
the manifest, one line per input file, in input order. -/
def generate_filelist_content (sep : String) (mp3_files : List Path) : String :=
  strJoin (mp3_files.map (filelistLine sep))

/-- A filesystem effect of `merge_mp3_files`. -/
inductive FsEvent : Type where
  | writeFile (path : Path) (content : String)
  | runConcat (manifest : Path) (output : Path) (success : Bool)
  | removeFile (path : Path)
deriving DecidableEq

/-- Model of `merge_mp3_files` (source lines 80-104) as its ordered list of
filesystem effects plus its returned Bool: write the manifest
`<output_folder>/filelist.txt`, run the external tool on it producing
`<output_folder>/<book_title>-merged.mp3`, and - in the `finally` block,
on the success path and on the exception path alike - remove the
manifest.  The returned Bool is exactly the oracle's verdict. -/
def merge_mp3_files (ok : Oracle) (sep : String) (mp3_files : List Path)
    (output_folder : Path) (book_title : String) : List FsEvent × Bool :=
  let filelist_path := output_folder ++ ["filelist.txt"]
  let output_file := output_folder ++ [book_title ++ "-merged.mp3"]
  let succ := ok mp3_files output_folder book_title
  ([FsEvent.writeFile filelist_path (generate_filelist_content sep mp3_files),
    FsEvent.runConcat filelist_path output_file succ,
    FsEvent.removeFile filelist_path],
   succ)

/-- Source lines 61-66 and 73-78, the shared merge-and-cleanup step: call
`merge_mp3_files`; on success delete every input file
(`remove_original_files`, lines 119-131, which removes each path) and set
`processed_books[book_title] = True`; on failure change nothing but the
attempt log. -/
def attemptMerge (ok : Oracle) (mp3s : List Path) (root : Path)
    (title : String) (st : ScanState) : ScanState :=
  let succ := ok mp3s root title
  let st1 : ScanState :=
    { st with attempts := st.attempts ++ [⟨mp3s, root, title, succ⟩] }
  if succ then
    { st1 with
        deleted := st1.deleted ++ mp3s,
        processed := dictSet st1.processed title true }
  else st1

/-- Source line 70: the files directly inside the directory whose name ends
in `.mp3`, as full paths. -/
def flatMp3s (root : Path) (files : List String) : List Path :=
  (files.filter (fun f => strEndsWith f ".mp3")).map (fun f => root ++ [f])

/-- The body of the `for root, dirs, files in os.walk(...)` loop for one
visited directory (source lines 45-78), without the walk's descent.
Returns the updated state and the prune flag: `true` exactly when the
source executes `dirs[:] = []`.

  * line 48: skip when the base name is a key of `processed_books`;
  * line 52: `cd_folders` are the children whose lowercased name starts
    with `cd`;
  * lines 53-67: when any exist, collect `.mp3` files recursively from the
    cd folders only, merge when the collection is nonempty, and prune;
  * lines 68-78: otherwise take the files directly here that end in
    `.mp3`, and merge when there are at least two. -/
def visitDir (ok : Oracle) (parent : Path) (d : FsDir) (st : ScanState) :
    ScanState × Bool :=
  match d with
  | .node name files subs =>
    let root := parent ++ [name]
    if dictMem st.processed name then (st, false)
    else
      let cds := subs.filter isCdDir
      if cds.isEmpty then
        let mp3s := flatMp3s root files
        (if 1 < mp3s.length then attemptMerge ok mp3s root name st else st,
         false)
      else
        let mp3s := collectMp3List root cds
        (if mp3s.isEmpty then st else attemptMerge ok mp3s root name st,
         true)

mutual

/-- The walk of `scan_for_mp3_books` from one directory: visit it, then -
unless the visit pruned - descend into its children in order, threading
the state.  `parent` is the path of the directory containing `d`. -/
def scanDir (ok : Oracle) (parent : Path) : FsDir → ScanState → ScanState
  | .node name files subs, st =>
    let p := visitDir ok parent (.node name files subs) st
    if p.2 then p.1 else scanList ok (parent ++ [name]) subs p.1

/-- The walk over a list of sibling directories, left to right. -/
def scanList (ok : Oracle) (parent : Path) : List FsDir → ScanState → ScanState
  | [], st => st
  | d :: ds, st => scanList ok parent ds (scanDir ok parent d st)

end

/-- Model of `scan_for_mp3_books` (source lines 35-78): walk the tree rooted at
`base` (whose own path is `parent ++ [base.name]`), starting from the
loaded processed map, with no deletions and no attempts yet. -/
def scan_for_mp3_books (ok : Oracle) (parent : Path) (base : FsDir)
    (processed_books : BookDict) : ScanState :=
  scanDir ok parent base { processed := processed_books, deleted := [], attempts := [] }

/-- State evolution invariant of the run: deletions and attempts only
accumulate, and a processed entry, once present, keeps its value. -/
def Pres (st st' : ScanState) : Prop :=
  (∀ p, p ∈ st.deleted → p ∈ st'.deleted) ∧
  (∀ a, a ∈ st.attempts → a ∈ st'.attempts) ∧
  (∀ k v, st.processed.lookup k = some v → st'.processed.lookup k = some v)

/- Association-list lemmas -/

theorem lookup_append (l₁ l₂ : BookDict) (k : String) :
    (l₁ ++ l₂).lookup k
      = match l₁.lookup k with
        | some w => some w
        | none => l₂.lookup k := by
  induction l₁ with
  | nil => simp
  | cons h t ih =>
    by_cases hk : k == h.1
    · simp [List.lookup, hk]
    · simp only [List.cons_append, List.lookup, hk]
      exact ih

theorem dictMem_false_lookup {d : BookDict} {k : String}
    (h : dictMem d k = false) : d.lookup k = none := by
  unfold dictMem at h
  cases hl : d.lookup k with
  | none => rfl
  | some v => rw [hl] at h; simp at h

theorem dictSet_fresh {d : BookDict} {k : String} (v : Bool)
    (h : dictMem d k = false) : dictSet d k v = d ++ [(k, v)] := by
  unfold dictSet
  rw [h]
  simp

/- Preservation lemmas: the state only accumulates -/

theorem pres_refl (st : ScanState) : Pres st st :=
  ⟨fun _ h => h, fun _ h => h, fun _ _ h => h⟩

theorem pres_trans {a b c : ScanState} (h₁ : Pres a b) (h₂ : Pres b c) :
    Pres a c :=
  ⟨fun p hp => h₂.1 p (h₁.1 p hp),
   fun x hx => h₂.2.1 x (h₁.2.1 x hx),
   fun k v hv => h₂.2.2 k v (h₁.2.2 k v hv)⟩

theorem lookup_none_of_pres {a b : ScanState} (h : Pres a b) {k : String}
    (hn : b.processed.lookup k = none) : a.processed.lookup k = none := by
  cases hl : a.processed.lookup k with
  | none => rfl
  | some v => rw [h.2.2 k v hl] at hn; exact absurd hn (by simp)

theorem pres_attemptMerge (ok : Oracle) (mp3s : List Path) (root : Path)
    (title : String) (st : ScanState)
    (h : st.processed.lookup title = none) :
    Pres st (attemptMerge ok mp3s root title st) := by
  unfold attemptMerge
  by_cases hs : ok mp3s root title
  · simp only [hs, if_pos]
    refine ⟨fun p hp => ?_, fun a ha => ?_, fun k v hv => ?_⟩
    · simp [List.mem_append, hp]
    · simp [List.mem_append, ha]
    · have hm : dictMem st.processed title = false := by
        unfold dictMem; rw [h]; rfl
      simp only [dictSet_fresh true hm, lookup_append]
      rw [hv]
  · simp only [hs, if_neg, Bool.false_eq_true, not_false_eq_true]
    exact ⟨fun p hp => hp, fun a ha => by simp [List.mem_append, ha],
      fun k v hv => hv⟩

theorem pres_visitDir (ok : Oracle) (parent : Path) (d : FsDir)
    (st : ScanState) : Pres st (visitDir ok parent d st).1 := by
  obtain ⟨name, files, subs⟩ := d
  unfold visitDir
  by_cases hm : dictMem st.processed name
  · simp only [hm, if_true]
    exact pres_refl st
  · have hl : st.processed.lookup name = none :=
      dictMem_false_lookup (Bool.eq_false_iff.mpr hm)
    simp only [hm, Bool.false_eq_true, if_false]
    by_cases hc : (subs.filter isCdDir).isEmpty
    · simp only [hc, if_true]
      by_cases hn : 1 < (flatMp3s (parent ++ [name]) files).length
      · simp only [hn, if_true]
        exact pres_attemptMerge ok _ _ _ st hl
      · simp only [hn, if_false]
        exact pres_refl st
    · simp only [hc, Bool.false_eq_true, if_false]
      by_cases hn : (collectMp3List (parent ++ [name]) (subs.filter isCdDir)).isEmpty
      · simp only [hn, if_true]
        exact pres_refl st
      · simp only [hn, Bool.false_eq_true, if_false]
        exact pres_attemptMerge ok _ _ _ st hl

mutual

theorem pres_scanDir (ok : Oracle) (parent : Path) :
    ∀ (d : FsDir) (st : ScanState), Pres st (scanDir ok parent d st)
  | .node name files subs, st => by
    have hv := pres_visitDir ok parent (.node name files subs) st
    unfold scanDir
    by_cases hp : (visitDir ok parent (.node name files subs) st).2
    · simp only [hp, if_true]
      exact hv
    · simp only [hp, Bool.false_eq_true, if_false]
      exact pres_trans hv (pres_scanList ok (parent ++ [name]) subs _)

theorem pres_scanList (ok : Oracle) (parent : Path) :
    ∀ (ds : List FsDir) (st : ScanState), Pres st (scanList ok parent ds st)
  | [], st => pres_refl st
  | d :: ds, st => by
    unfold scanList
    exact pres_trans (pres_scanDir ok parent d st)
      (pres_scanList ok parent ds _)

end

/- What the CD-folder collection produces -/

mutual

theorem collectMp3_spec : ∀ (path : Path) (d : FsDir), ∀ p ∈ collectMp3 path d,
    (∃ f, p.getLast? = some f ∧ strEndsWith f ".mp3" = true) ∧
      (path ++ [d.name]) <+: p ∧ path.length + 2 ≤ p.length
  | path, .node name files subs => by
    intro p hp
    unfold collectMp3 at hp
    rw [List.mem_append] at hp
    cases hp with
    | inl h =>
      obtain ⟨f, hf, rfl⟩ := List.mem_map.mp h
      have hf' := (List.mem_filter.mp hf).2
      have heq : path ++ [name, f] = (path ++ [name]) ++ [f] := by simp
      refine ⟨⟨f, ?_, hf'⟩, ?_, ?_⟩
      · rw [heq, List.getLast?_concat]
      · rw [heq]
        exact List.prefix_append _ _
      · simp
    | inr h =>
      obtain ⟨he, ⟨c, _, hc⟩, hlen⟩ :=
        collectMp3List_spec (path ++ [name]) subs p h
      refine ⟨he, ?_, ?_⟩
      · exact (List.prefix_append (path ++ [name]) [c.name]).trans hc
      · simp only [List.length_append, List.length_cons, List.length_nil] at hlen ⊢
        omega

theorem collectMp3List_spec : ∀ (path : Path) (ds : List FsDir),
    ∀ p ∈ collectMp3List path ds,
    (∃ f, p.getLast? = some f ∧ strEndsWith f ".mp3" = true) ∧
      (∃ c ∈ ds, (path ++ [c.name]) <+: p) ∧ path.length + 2 ≤ p.length
  | _, [] => by intro p hp; simp [collectMp3List] at hp
  | path, d :: ds => by
    intro p hp
    unfold collectMp3List at hp
    rw [List.mem_append] at hp
    cases hp with
    | inl h =>
      obtain ⟨he, hpre, hlen⟩ := collectMp3_spec path d p h
      exact ⟨he, ⟨d, List.mem_cons_self d ds, hpre⟩, hlen⟩
    | inr h =>
      obtain ⟨he, ⟨c, hc, hpre⟩, hlen⟩ := collectMp3List_spec path ds p h
      exact ⟨he, ⟨c, List.mem_cons_of_mem d hc, hpre⟩, hlen⟩

end

/- Where deletions can come from -/

theorem deleted_attemptMerge {ok : Oracle} {mp3s : List Path} {root : Path}
    {title : String} {st : ScanState} {p : Path}
    (h : p ∈ (attemptMerge ok mp3s root title st).deleted) :
    p ∈ st.deleted ∨ p ∈ mp3s := by
  unfold attemptMerge at h
  by_cases hs : ok mp3s root title
  · simp only [hs, if_true] at h
    simpa using h
  · simp only [hs, Bool.false_eq_true, if_false] at h
    exact Or.inl h

theorem deleted_visitDir {ok : Oracle} {parent : Path} {name : String}
    {files : List String} {subs : List FsDir} {st : ScanState} {p : Path}
    (h : p ∈ (visitDir ok parent (.node name files subs) st).1.deleted) :
    p ∈ st.deleted ∨ parent.length + 2 ≤ p.length := by
  unfold visitDir at h
  by_cases hm : dictMem st.processed name
  · simp only [hm, if_true] at h
    exact Or.inl h
  · simp only [hm, Bool.false_eq_true, if_false] at h
    by_cases hc : (subs.filter isCdDir).isEmpty
    · simp only [hc, if_true] at h
      by_cases hn : 1 < (flatMp3s (parent ++ [name]) files).length
      · simp only [hn, if_true] at h
        cases deleted_attemptMerge h with
        | inl h' => exact Or.inl h'
        | inr h' =>
          obtain ⟨f, _, rfl⟩ := List.mem_map.mp h'
          right
          simp
      · simp only [hn, if_false] at h
        exact Or.inl h
    · simp only [hc, Bool.false_eq_true, if_false] at h
      by_cases hn : (collectMp3List (parent ++ [name]) (subs.filter isCdDir)).isEmpty
      · simp only [hn, if_true] at h
        exact Or.inl h
      · simp only [hn, Bool.false_eq_true, if_false] at h
        cases deleted_attemptMerge h with
        | inl h' => exact Or.inl h'
        | inr h' =>
          obtain ⟨_, _, hlen⟩ :=
            collectMp3List_spec (parent ++ [name]) (subs.filter isCdDir) p h'
          right
          simp only [List.length_append, List.length_cons, List.length_nil] at hlen
          omega

mutual

theorem deleted_scanDir (ok : Oracle) : ∀ (parent : Path) (d : FsDir)
    (st : ScanState) (p : Path), p ∈ (scanDir ok parent d st).deleted →
    p ∈ st.deleted ∨ parent.length + 2 ≤ p.length
  | parent, .node name files subs, st, p => by
    intro h
    unfold scanDir at h
    by_cases hp : (visitDir ok parent (.node name files subs) st).2
    · simp only [hp, if_true] at h
      exact deleted_visitDir h
    · simp only [hp, Bool.false_eq_true, if_false] at h
      cases deleted_scanList ok (parent ++ [name]) subs _ p h with
      | inl h' => exact deleted_visitDir h'
      | inr h' =>
        right
        simp only [List.length_append, List.length_cons, List.length_nil] at h'
        omega

theorem deleted_scanList (ok : Oracle) : ∀ (parent : Path) (ds : List FsDir)
    (st : ScanState) (p : Path), p ∈ (scanList ok parent ds st).deleted →
    p ∈ st.deleted ∨ parent.length + 2 ≤ p.length
  | _, [], _, _ => by intro h; exact Or.inl h
  | parent, d :: ds, st, p => by
    intro h
    unfold scanList at h
    cases deleted_scanList ok parent ds _ p h with
    | inl h' => exact deleted_scanDir ok parent d st p h'
    | inr h' => exact Or.inr h'

end

/- Where merge attempts can come from -/

theorem attempts_attemptMerge (ok : Oracle) (mp3s : List Path) (root : Path)
    (title : String) (st : ScanState) :
    (attemptMerge ok mp3s root title st).attempts
      = st.attempts ++ [⟨mp3s, root, title, ok mp3s root title⟩] := by
  unfold attemptMerge
  by_cases hs : ok mp3s root title
  · simp [hs]
  · simp [hs]

theorem attempts_visitDir {ok : Oracle} {parent : Path} {name : String}
    {files : List String} {subs : List FsDir} {st : ScanState}
    {a : MergeAttempt}
    (h : a ∈ (visitDir ok parent (.node name files subs) st).1.attempts) :
    a ∈ st.attempts ∨
      (st.processed.lookup a.title = none ∧
        ∀ p ∈ a.inputs, ∃ g, p.getLast? = some g ∧ strEndsWith g ".mp3" = true) := by
  unfold visitDir at h
  by_cases hm : dictMem st.processed name
  · simp only [hm, if_true] at h
    exact Or.inl h
  · have hl : st.processed.lookup name = none :=
      dictMem_false_lookup (Bool.eq_false_iff.mpr hm)
    simp only [hm, Bool.false_eq_true, if_false] at h
    by_cases hc : (subs.filter isCdDir).isEmpty
    · simp only [hc, if_true] at h
      by_cases hn : 1 < (flatMp3s (parent ++ [name]) files).length
      · simp only [hn, if_true, attempts_attemptMerge, List.mem_append,
          List.mem_singleton] at h
        cases h with
        | inl h' => exact Or.inl h'
        | inr h' =>
          subst h'
          refine Or.inr ⟨hl, ?_⟩
          intro p hp
          obtain ⟨f, hf, rfl⟩ := List.mem_map.mp hp
          exact ⟨f, List.getLast?_concat _, (List.mem_filter.mp hf).2⟩
      · simp only [hn, if_false] at h
        exact Or.inl h
    · simp only [hc, Bool.false_eq_true, if_false] at h
      by_cases hn : (collectMp3List (parent ++ [name]) (subs.filter isCdDir)).isEmpty
      · simp only [hn, if_true] at h
        exact Or.inl h
      · simp only [hn, Bool.false_eq_true, if_false, attempts_attemptMerge,
          List.mem_append, List.mem_singleton] at h
        cases h with
        | inl h' => exact Or.inl h'
        | inr h' =>
          subst h'
          refine Or.inr ⟨hl, ?_⟩
          intro p hp
          exact (collectMp3List_spec _ _ p hp).1

mutual

theorem attempts_scanDir (ok : Oracle) : ∀ (parent : Path) (d : FsDir)
    (st : ScanState) (a : MergeAttempt),
    a ∈ (scanDir ok parent d st).attempts →
    a ∈ st.attempts ∨
      (st.processed.lookup a.title = none ∧
        ∀ p ∈ a.inputs, ∃ g, p.getLast? = some g ∧ strEndsWith g ".mp3" = true)
  | parent, .node name files subs, st, a => by
    intro h
    unfold scanDir at h
    by_cases hp : (visitDir ok parent (.node name files subs) st).2
    · simp only [hp, if_true] at h
      exact attempts_visitDir h
    · simp only [hp, Bool.false_eq_true, if_false] at h
      cases attempts_scanList ok (parent ++ [name]) subs _ a h with
      | inl h' => exact attempts_visitDir h'
      | inr h' =>
        exact Or.inr ⟨lookup_none_of_pres
          (pres_visitDir ok parent (.node name files subs) st) h'.1, h'.2⟩

theorem attempts_scanList (ok : Oracle) : ∀ (parent : Path) (ds : List FsDir)
    (st : ScanState) (a : MergeAttempt),
    a ∈ (scanList ok parent ds st).attempts →
    a ∈ st.attempts ∨
      (st.processed.lookup a.title = none ∧
        ∀ p ∈ a.inputs, ∃ g, p.getLast? = some g ∧ strEndsWith g ".mp3" = true)
  | _, [], _, _ => by intro h; exact Or.inl h
  | parent, d :: ds, st, a => by
    intro h
    unfold scanList at h
    cases attempts_scanList ok parent ds _ a h with
    | inl h' => exact attempts_scanDir ok parent d st a h'
    | inr h' =>
      exact Or.inr ⟨lookup_none_of_pres (pres_scanDir ok parent d st) h'.1,
        h'.2⟩

end

/- New processed entries always carry the value true -/

theorem processed_attemptMerge {ok : Oracle} {mp3s : List Path} {root : Path}
    {title : String} {st : ScanState} {k : String} {v : Bool}
    (hl : st.processed.lookup title = none)
    (h : (attemptMerge ok mp3s root title st).processed.lookup k = some v) :
    st.processed.lookup k = some v ∨ v = true := by
  unfold attemptMerge at h
  by_cases hs : ok mp3s root title
  · have hm : dictMem st.processed title = false := by
      unfold dictMem; rw [hl]; rfl
    simp only [hs, if_true, dictSet_fresh true hm, lookup_append] at h
    cases hk : st.processed.lookup k with
    | some w =>
      rw [hk] at h
      have h' : some w = some v := h
      exact Or.inl h'
    | none =>
      rw [hk] at h
      by_cases hkt : k == title
      · simp only [hkt, List.lookup, if_true] at h
        right
        cases h
        rfl
      · simp [List.lookup, hkt] at h
  · simp only [hs, Bool.false_eq_true, if_false] at h
    exact Or.inl h

theorem processed_visitDir {ok : Oracle} {parent : Path} {name : String}
    {files : List String} {subs : List FsDir} {st : ScanState} {k : String}
    {v : Bool}
    (h : (visitDir ok parent (.node name files subs) st).1.processed.lookup k
      = some v) :
    st.processed.lookup k = some v ∨ v = true := by
  unfold visitDir at h
  by_cases hm : dictMem st.processed name
  · simp only [hm, if_true] at h
    exact Or.inl h
  · have hl : st.processed.lookup name = none :=
      dictMem_false_lookup (Bool.eq_false_iff.mpr hm)
    simp only [hm, Bool.false_eq_true, if_false] at h
    by_cases hc : (subs.filter isCdDir).isEmpty
    · simp only [hc, if_true] at h
      by_cases hn : 1 < (flatMp3s (parent ++ [name]) files).length
      · simp only [hn, if_true] at h
        exact processed_attemptMerge hl h
      · simp only [hn, if_false] at h
        exact Or.inl h
    · simp only [hc, Bool.false_eq_true, if_false] at h
      by_cases hn : (collectMp3List (parent ++ [name]) (subs.filter isCdDir)).isEmpty
      · simp only [hn, if_true] at h
        exact Or.inl h
      · simp only [hn, Bool.false_eq_true, if_false] at h
        exact processed_attemptMerge hl h

mutual

theorem processed_scanDir (ok : Oracle) : ∀ (parent : Path) (d : FsDir)
    (st : ScanState) (k : String) (v : Bool),
    (scanDir ok parent d st).processed.lookup k = some v →
    st.processed.lookup k = some v ∨ v = true
  | parent, .node name files subs, st, k, v => by
    intro h
    unfold scanDir at h
    by_cases hp : (visitDir ok parent (.node name files subs) st).2
    · simp only [hp, if_true] at h
      exact processed_visitDir h
    · simp only [hp, Bool.false_eq_true, if_false] at h
      cases processed_scanList ok (parent ++ [name]) subs _ k v h with
      | inl h' => exact processed_visitDir h'
      | inr h' => exact Or.inr h'

theorem processed_scanList (ok : Oracle) : ∀ (parent : Path) (ds : List FsDir)
    (st : ScanState) (k : String) (v : Bool),
    (scanList ok parent ds st).processed.lookup k = some v →
    st.processed.lookup k = some v ∨ v = true
  | _, [], _, _, _ => by intro h; exact Or.inl h
  | parent, d :: ds, st, k, v => by
    intro h
    unfold scanList at h
    cases processed_scanList ok parent ds _ k v h with
    | inl h' => exact processed_scanDir ok parent d st k v h'
    | inr h' => exact Or.inr h'

end

/- The claims -/

/-- Claim C2: for every merge attempt in which the external concatenation
tool exits with a non-zero status, every input file of that merge job
remains intact (the deletion log is unchanged, so no deletion is
performed), the book's name is absent from the processed-state mapping
afterward (the mapping itself is unchanged), and the attempt is logged as
a failure - so the book is re-attempted on the next run.  The hypothesis
that the title is not yet a key holds at every call site, by the skip on
source line 48. -/
theorem C2_failed_merge_preserves_originals (ok : Oracle) (mp3s : List Path)
    (root : Path) (title : String) (st : ScanState)
    (hfail : ok mp3s root title = false)
    (hmem : dictMem st.processed title = false) :
    (attemptMerge ok mp3s root title st).deleted = st.deleted ∧
    (attemptMerge ok mp3s root title st).processed = st.processed ∧
    dictMem (attemptMerge ok mp3s root title st).processed title = false ∧
    (attemptMerge ok mp3s root title st).attempts
      = st.attempts ++ [⟨mp3s, root, title, false⟩] := by
  unfold attemptMerge
  rw [hfail]
  exact ⟨rfl, rfl, hmem, by simp⟩

/-- Claim C2, witness: a concrete failed merge of a two-file book leaves
the deletion log empty, the processed map empty, and logs one failed
attempt. -/
theorem C2_failed_merge_witness :
    (attemptMerge (fun _ _ _ => false) [["B", "a.mp3"], ["B", "b.mp3"]]
        ["B"] "B" ⟨[], [], []⟩).deleted = [] ∧
    (attemptMerge (fun _ _ _ => false) [["B", "a.mp3"], ["B", "b.mp3"]]
        ["B"] "B" ⟨[], [], []⟩).processed = [] ∧
    dictMem (attemptMerge (fun _ _ _ => false) [["B", "a.mp3"], ["B", "b.mp3"]]
        ["B"] "B" ⟨[], [], []⟩).processed "B" = false ∧
    (attemptMerge (fun _ _ _ => false) [["B", "a.mp3"], ["B", "b.mp3"]]
        ["B"] "B" ⟨[], [], []⟩).attempts
      = [⟨[["B", "a.mp3"], ["B", "b.mp3"]], ["B"], "B", false⟩] :=
  C2_failed_merge_preserves_originals (fun _ _ _ => false)
    [["B", "a.mp3"], ["B", "b.mp3"]] ["B"] "B" ⟨[], [], []⟩ rfl rfl

/-- Claim C5: every merge attempt a run makes is for a book whose base
name was not a key of the loaded ProcessedBooks mapping: any directory
whose base name is a key (exact string match on the base name) is skipped
before any classification or merge, so a second run attempts no re-merge
of a book marked processed by the first. -/
theorem C5_processed_never_reattempted (ok : Oracle) (parent : Path)
    (base : FsDir) (processed_books : BookDict) :
    ∀ a ∈ (scan_for_mp3_books ok parent base processed_books).attempts,
      processed_books.lookup a.title = none := by
  intro a ha
  unfold scan_for_mp3_books at ha
  cases attempts_scanDir ok parent base _ a ha with
  | inl h => exact absurd h (List.not_mem_nil a)
  | inr h => exact h.1

/-- Claim C5, witness: a concrete run starting from a map containing "Z"
merges the unprocessed book "A", and the theorem yields that "A" was not a
key of the loaded map. -/
theorem C5_processed_never_reattempted_witness :
    (⟨[[ "A", "a.mp3"], ["A", "b.mp3"]], ["A"], "A", true⟩ : MergeAttempt)
        ∈ (scan_for_mp3_books (fun _ _ _ => true) []
            (.node "A" ["a.mp3", "b.mp3"] []) [("Z", true)]).attempts ∧
    ([("Z", true)] : BookDict).lookup "A" = none :=
  ⟨by decide,
   C5_processed_never_reattempted (fun _ _ _ => true) []
     (.node "A" ["a.mp3", "b.mp3"] []) [("Z", true)]
     ⟨[[ "A", "a.mp3"], ["A", "b.mp3"]], ["A"], "A", true⟩ (by decide)⟩

/-- Claim C7: every merge attempt first writes the manifest
`<output_folder>/filelist.txt` whose content lists each input path with
backslashes normalized to forward slashes, one per line, wrapped in single
quotes (with the concat demuxer's `file ` keyword); the external tool then
runs on that manifest; and the manifest is removed as the last effect,
unconditionally - the statement holds for every oracle, so on the success
path and on the failure path alike. -/
theorem C7_manifest_written_then_removed (ok : Oracle) (sep : String)
    (mp3_files : List Path) (output_folder : Path) (book_title : String) :
    (merge_mp3_files ok sep mp3_files output_folder book_title).1.head?
        = some (FsEvent.writeFile (output_folder ++ ["filelist.txt"])
            (generate_filelist_content sep mp3_files)) ∧
    (merge_mp3_files ok sep mp3_files output_folder book_title).1.getLast?
        = some (FsEvent.removeFile (output_folder ++ ["filelist.txt"])) ∧
    FsEvent.runConcat (output_folder ++ ["filelist.txt"])
        (output_folder ++ [book_title ++ "-merged.mp3"])
        (ok mp3_files output_folder book_title)
      ∈ (merge_mp3_files ok sep mp3_files output_folder book_title).1 ∧
    (merge_mp3_files ok sep mp3_files output_folder book_title).2
        = ok mp3_files output_folder book_title ∧
    generate_filelist_content sep mp3_files
        = strJoin (mp3_files.map (fun p =>
            "file " ++ singleQuote ++ strReplaceBackslash (pathStr sep p)
              ++ singleQuote ++ "\n")) := by
  refine ⟨rfl, ?_, ?_, rfl, rfl⟩
  · simp [merge_mp3_files]
  · simp [merge_mp3_files]

/-- Claim C8: the state loader returns the empty mapping when no prior
state file exists (it never raises there), and the mapping parsed from the
file when it does exist. -/
theorem C8_load_processed_books_fails_open :
    load_processed_books none = ([] : BookDict) ∧
      ∀ m : BookDict, load_processed_books (some m) = m :=
  ⟨rfl, fun _ => rfl⟩

/-- Claim C9: the scan only accumulates ProcessedBooks entries: every key
of the input mapping keeps its original value after the scan, and every
key the scan adds maps to true. -/
theorem C9_processed_only_grows_with_true (ok : Oracle) (parent : Path)
    (d : FsDir) (st : ScanState) :
    (∀ k v, st.processed.lookup k = some v →
        (scanDir ok parent d st).processed.lookup k = some v) ∧
    (∀ k v, (scanDir ok parent d st).processed.lookup k = some v →
        st.processed.lookup k = some v ∨ v = true) :=
  ⟨fun k v h => (pres_scanDir ok parent d st).2.2 k v h,
   fun k v h => processed_scanDir ok parent d st k v h⟩

/-- Claim C9, witness: a concrete scan that merges book "B" leaves the
pre-existing entry `"Old" ↦ false` untouched. -/
theorem C9_processed_only_grows_witness :
    ((⟨[("Old", false)], [], []⟩ : ScanState)).processed.lookup "Old"
        = some false ∧
    (scanDir (fun _ _ _ => true) [] (.node "B" ["a.mp3", "b.mp3"] [])
        ⟨[("Old", false)], [], []⟩).processed.lookup "Old" = some false :=
  ⟨by decide,
   (C9_processed_only_grows_with_true (fun _ _ _ => true) []
       (.node "B" ["a.mp3", "b.mp3"] []) ⟨[("Old", false)], [], []⟩).1
     "Old" false (by decide)⟩

/-- A string ending in the lowercase suffix `.mp3` does not end in the
uppercase suffix `.MP3`: the two length-4 suffixes would have to be
equal. -/
theorem strEndsWith_mp3_not_MP3 (f : String)
    (h : strEndsWith f ".mp3" = true) : strEndsWith f ".MP3" = false := by
  unfold strEndsWith at h ⊢
  rw [List.isSuffixOf_iff_suffix] at h
  by_contra hc
  rw [Bool.not_eq_false, List.isSuffixOf_iff_suffix] at hc
  obtain ⟨t₁, h₁⟩ := h
  obtain ⟨t₂, h₂⟩ := hc
  rw [← h₁] at h₂
  have hlen : t₂.length = t₁.length := by
    have hl := congrArg List.length h₂
    rw [List.length_append, List.length_append] at hl
    have h4 : (".MP3".data).length = 4 := by decide
    have h5 : (".mp3".data).length = 4 := by decide
    omega
  obtain ⟨-, h4⟩ := List.append_inj h₂ hlen
  exact absurd h4 (by decide)

/-- Claim C10: audio-file classification is case-sensitive on the
extension.  Every input of every merge job the scan forms is a file whose
name ends in the exact lowercase suffix `.mp3` - and therefore not in an
uppercase suffix such as `.MP3` - in the flat branch and the CD-folder
branch alike. -/
theorem C10_extension_case_sensitive (ok : Oracle) (parent : Path)
    (d : FsDir) (st : ScanState) :
    ∀ a ∈ (scanDir ok parent d st).attempts, a ∈ st.attempts ∨
      ∀ p ∈ a.inputs, ∃ f, p.getLast? = some f ∧
        strEndsWith f ".mp3" = true ∧ strEndsWith f ".MP3" = false := by
  intro a ha
  cases attempts_scanDir ok parent d st a ha with
  | inl h => exact Or.inl h
  | inr h =>
    refine Or.inr fun p hp => ?_
    obtain ⟨f, h1, h2⟩ := h.2 p hp
    exact ⟨f, h1, h2, strEndsWith_mp3_not_MP3 f h2⟩

/-- Claim C10, witness: scanning a directory holding `a.MP3`, `b.MP3`,
`c.mp3`, `d.mp3` forms exactly one job, over the two lowercase files only,
and the theorem applies to it. -/
theorem C10_extension_case_witness :
    (scanDir (fun _ _ _ => true) []
        (.node "M" ["a.MP3", "b.MP3", "c.mp3", "d.mp3"] [])
        ⟨[], [], []⟩).attempts
      = [⟨[["M", "c.mp3"], ["M", "d.mp3"]], ["M"], "M", true⟩] ∧
    ((⟨[["M", "c.mp3"], ["M", "d.mp3"]], ["M"], "M", true⟩ : MergeAttempt)
        ∈ (⟨[], [], []⟩ : ScanState).attempts ∨
      ∀ p ∈ [["M", "c.mp3"], ["M", "d.mp3"]], ∃ f,
        List.getLast? p = some f ∧
        strEndsWith f ".mp3" = true ∧ strEndsWith f ".MP3" = false) :=
  ⟨by decide,
   C10_extension_case_sensitive (fun _ _ _ => true) []
     (.node "M" ["a.MP3", "b.MP3", "c.mp3", "d.mp3"] []) ⟨[], [], []⟩
     ⟨[["M", "c.mp3"], ["M", "d.mp3"]], ["M"], "M", true⟩ (by decide)⟩

/-- Claim C3, counterexample: the claim states that every directory
containing zero or one audio file is left unchanged, but a directory with
no `.mp3` file of its own (and a single `.mp3` anywhere in its subtree)
whose child `CD1` holds that one file DOES get a merge job: the one file
is merged alone, deleted, and the book marked processed. -/
theorem C3_counterexample :
    (FsDir.node "Book" [] [.node "CD1" ["part1.mp3"] []]).files.filter
        (fun f => strEndsWith f ".mp3") = [] ∧
    (visitDir (fun _ _ _ => true) []
        (.node "Book" [] [.node "CD1" ["part1.mp3"] []])
        ⟨[], [], []⟩).1.deleted = [["Book", "CD1", "part1.mp3"]] ∧
    (visitDir (fun _ _ _ => true) []
        (.node "Book" [] [.node "CD1" ["part1.mp3"] []])
        ⟨[], [], []⟩).1.attempts.length = 1 ∧
    dictMem (visitDir (fun _ _ _ => true) []
        (.node "Book" [] [.node "CD1" ["part1.mp3"] []])
        ⟨[], [], []⟩).1.processed "Book" = true := by
  decide

/-- Claim C3 as amended: for every directory that either is already a key
of ProcessedBooks, or has no cd-prefixed child and at most one direct
`.mp3` file, or has cd-prefixed children that contain no `.mp3` file
anywhere, the visit leaves the state unchanged: no merge job is formed,
no file is deleted, and no entry is added to ProcessedBooks. -/
theorem C3_idle_directories_unchanged (ok : Oracle) (parent : Path)
    (name : String) (files : List String) (subs : List FsDir)
    (st : ScanState)
    (h : dictMem st.processed name = true ∨
      ((subs.filter isCdDir).isEmpty = true ∧
        (flatMp3s (parent ++ [name]) files).length ≤ 1) ∨
      ((subs.filter isCdDir).isEmpty = false ∧
        (collectMp3List (parent ++ [name]) (subs.filter isCdDir)).isEmpty
          = true)) :
    (visitDir ok parent (.node name files subs) st).1 = st := by
  unfold visitDir
  by_cases hm : dictMem st.processed name
  · simp only [hm, if_true]
  · rcases h with h | ⟨hc, hn⟩ | ⟨hc, hn⟩
    · exact absurd h hm
    · have hn' : ¬ 1 < (flatMp3s (parent ++ [name]) files).length := by omega
      simp only [hm, Bool.false_eq_true, if_false, hc, if_true, hn', if_false]
    · simp only [hm, Bool.false_eq_true, if_false, hc, if_false, hn, if_true]

/-- Claim C3 (amended), witness: a directory with one direct `.mp3`, no cd
children, is left fully unchanged by its visit. -/
theorem C3_idle_directories_witness :
    (visitDir (fun _ _ _ => true) []
        (.node "Plain" ["one.mp3", "readme.txt"] [])
        ⟨[], [], []⟩).1 = ⟨[], [], []⟩ :=
  C3_idle_directories_unchanged (fun _ _ _ => true) [] "Plain"
    ["one.mp3", "readme.txt"] [] ⟨[], [], []⟩ (Or.inr (Or.inl (by decide)))

/-- Claim C4, counterexample: the claim states that every visited
directory with a cd-prefixed child is pruned, but a directory whose base
name is already a key of ProcessedBooks is skipped by the `continue` on
source line 48 BEFORE the prune on line 67 can run, so the walk descends:
the unrelated sibling `Other` of the cd child of `B` is visited and even
merged as its own book. -/
theorem C4_counterexample :
    ((FsDir.node "B" [] [.node "cd1" ["a.mp3"] [],
        .node "Other" ["x.mp3", "y.mp3"] []]).subs.filter isCdDir).isEmpty
        = false ∧
    dictMem ([("B", true)] : BookDict) "B" = true ∧
    ∃ a ∈ (scanDir (fun _ _ _ => true) []
        (.node "B" [] [.node "cd1" ["a.mp3"] [],
          .node "Other" ["x.mp3", "y.mp3"] []])
        ⟨[("B", true)], [], []⟩).attempts,
      a.title = "Other" ∧ a.success = true := by
  decide

/-- Claim C4 as amended: for every visited directory whose base name is
not yet a key of ProcessedBooks and that has at least one child directory
whose lowercased name starts with `cd`, the traversal is pruned below the
directory: the whole scan of the subtree equals the single visit, and any
merge attempt it adds is for this directory itself, never for a cd child
or an unrelated sibling subdirectory. -/
theorem C4_cd_prunes_traversal (ok : Oracle) (parent : Path) (name : String)
    (files : List String) (subs : List FsDir) (st : ScanState)
    (hmem : dictMem st.processed name = false)
    (hcds : (subs.filter isCdDir).isEmpty = false) :
    scanDir ok parent (.node name files subs) st
        = (visitDir ok parent (.node name files subs) st).1 ∧
    ∀ a ∈ (scanDir ok parent (.node name files subs) st).attempts,
      a ∈ st.attempts ∨ a.outDir = parent ++ [name] := by
  have hv2 : (visitDir ok parent (.node name files subs) st).2 = true := by
    unfold visitDir
    simp only [hmem, Bool.false_eq_true, if_false, hcds]
  have heq : scanDir ok parent (.node name files subs) st
      = (visitDir ok parent (.node name files subs) st).1 := by
    unfold scanDir
    simp [hv2]
  refine ⟨heq, ?_⟩
  rw [heq]
  intro a ha
  unfold visitDir at ha
  simp only [hmem, Bool.false_eq_true, if_false, hcds] at ha
  by_cases hn : (collectMp3List (parent ++ [name])
      (subs.filter isCdDir)).isEmpty
  · simp only [hn, if_true] at ha
    exact Or.inl ha
  · simp only [hn, Bool.false_eq_true, if_false,
      attempts_attemptMerge, List.mem_append, List.mem_singleton] at ha
    cases ha with
    | inl h => exact Or.inl h
    | inr h => subst h; exact Or.inr rfl

/-- Claim C4 (amended), witness: an unprocessed directory with a `CD1`
child and an unrelated sibling `Other` full of `.mp3` files is pruned
whole - the scan is the single visit and the only new attempt is the
directory's own. -/
theorem C4_cd_prunes_witness :
    scanDir (fun _ _ _ => true) []
        (.node "C" [] [.node "CD1" ["a.mp3"] [],
          .node "Other" ["x.mp3", "y.mp3"] []]) ⟨[], [], []⟩
      = (visitDir (fun _ _ _ => true) []
          (.node "C" [] [.node "CD1" ["a.mp3"] [],
            .node "Other" ["x.mp3", "y.mp3"] []]) ⟨[], [], []⟩).1 ∧
    ∀ a ∈ (scanDir (fun _ _ _ => true) []
        (.node "C" [] [.node "CD1" ["a.mp3"] [],
          .node "Other" ["x.mp3", "y.mp3"] []]) ⟨[], [], []⟩).attempts,
      a ∈ (⟨[], [], []⟩ : ScanState).attempts ∨ a.outDir = [] ++ ["C"] :=
  C4_cd_prunes_traversal (fun _ _ _ => true) [] "C" []
    [.node "CD1" ["a.mp3"] [], .node "Other" ["x.mp3", "y.mp3"] []]
    ⟨[], [], []⟩ (by decide) (by decide)

/-- Claim C6: for every unprocessed directory with at least one
cd-prefixed child, the merge job's input list is exactly the `.mp3` files
collected recursively from the cd-prefixed children, in traversal
discovery order; every such child's lowercased name starts with `cd`, and
every input lies strictly below one of those children - so no file of the
directory itself (whose path would have only one component below the
directory) and no file of a non-cd child is ever an input. -/
theorem C6_cd_branch_inputs (ok : Oracle) (parent : Path) (name : String)
    (files : List String) (subs : List FsDir) (st : ScanState)
    (hmem : dictMem st.processed name = false)
    (hcds : (subs.filter isCdDir).isEmpty = false)
    (hne : (collectMp3List (parent ++ [name]) (subs.filter isCdDir)).isEmpty
      = false) :
    (visitDir ok parent (.node name files subs) st).1.attempts
        = st.attempts ++
          [⟨collectMp3List (parent ++ [name]) (subs.filter isCdDir),
            parent ++ [name], name,
            ok (collectMp3List (parent ++ [name]) (subs.filter isCdDir))
              (parent ++ [name]) name⟩] ∧
    (∀ c ∈ subs.filter isCdDir, isCdDir c = true) ∧
    ∀ p ∈ collectMp3List (parent ++ [name]) (subs.filter isCdDir),
      (∃ c ∈ subs.filter isCdDir, ((parent ++ [name]) ++ [c.name]) <+: p) ∧
        (parent ++ [name]).length + 2 ≤ p.length ∧
        ∃ f, p.getLast? = some f ∧ strEndsWith f ".mp3" = true := by
  refine ⟨?_, ?_, ?_⟩
  · unfold visitDir
    simp only [hmem, Bool.false_eq_true, if_false, hcds, hne,
      attempts_attemptMerge]
  · intro c hc
    exact (List.mem_filter.mp hc).2
  · intro p hp
    obtain ⟨he, hpre, hlen⟩ := collectMp3List_spec _ _ p hp
    exact ⟨hpre, hlen, he⟩

/-- Claim C6, witness: a book `Beta` with children `CD1`, `CD2`, `Extras`
and a stray direct file gets one job, over the cd folders' collection. -/
theorem C6_cd_branch_witness :
    (visitDir (fun _ _ _ => true) []
        (.node "Beta" ["stray.mp3"]
          [.node "CD1" ["p1.mp3"] [], .node "CD2" ["p2.mp3"] [],
           .node "Extras" ["bonus.mp3"] []]) ⟨[], [], []⟩).1.attempts
        = [] ++
          [⟨collectMp3List ([] ++ ["Beta"])
              (([(.node "CD1" ["p1.mp3"] []), (.node "CD2" ["p2.mp3"] []),
                 (.node "Extras" ["bonus.mp3"] [])] : List FsDir).filter
                isCdDir),
            [] ++ ["Beta"], "Beta",
            (fun _ _ _ => true)
              (collectMp3List ([] ++ ["Beta"])
                (([(.node "CD1" ["p1.mp3"] []), (.node "CD2" ["p2.mp3"] []),
                   (.node "Extras" ["bonus.mp3"] [])] : List FsDir).filter
                  isCdDir))
              ([] ++ ["Beta"]) "Beta"⟩] ∧
    (∀ c ∈ ([(.node "CD1" ["p1.mp3"] []), (.node "CD2" ["p2.mp3"] []),
        (.node "Extras" ["bonus.mp3"] [])] : List FsDir).filter isCdDir,
      isCdDir c = true) ∧
    ∀ p ∈ collectMp3List ([] ++ ["Beta"])
        (([(.node "CD1" ["p1.mp3"] []), (.node "CD2" ["p2.mp3"] []),
           (.node "Extras" ["bonus.mp3"] [])] : List FsDir).filter isCdDir),
      (∃ c ∈ ([(.node "CD1" ["p1.mp3"] []), (.node "CD2" ["p2.mp3"] []),
          (.node "Extras" ["bonus.mp3"] [])] : List FsDir).filter isCdDir,
        (([] ++ ["Beta"]) ++ [c.name]) <+: p) ∧
        ([] ++ ["Beta"] : Path).length + 2 ≤ p.length ∧
        ∃ f, p.getLast? = some f ∧ strEndsWith f ".mp3" = true :=
  C6_cd_branch_inputs (fun _ _ _ => true) [] "Beta" ["stray.mp3"]
    [.node "CD1" ["p1.mp3"] [], .node "CD2" ["p2.mp3"] [],
     .node "Extras" ["bonus.mp3"] []] ⟨[], [], []⟩
    (by decide) (by decide) (by decide)

/-- On a zero exit status, `merge_mp3_files` returns True and the caller
deletes the originals and marks the book: the resulting state,
explicitly. -/
theorem attemptMerge_success_state (ok : Oracle) (mp3s : List Path)
    (root : Path) (title : String) (st : ScanState)
    (h : ok mp3s root title = true) :
    attemptMerge ok mp3s root title st
      = { processed := dictSet st.processed title true,
          deleted := st.deleted ++ mp3s,
          attempts := st.attempts ++ [⟨mp3s, root, title, true⟩] } := by
  unfold attemptMerge
  rw [h]
  rfl

/-- On a non-zero exit status the caller keeps everything: only the
attempt log grows. -/
theorem attemptMerge_failure_state (ok : Oracle) (mp3s : List Path)
    (root : Path) (title : String) (st : ScanState)
    (h : ok mp3s root title = false) :
    attemptMerge ok mp3s root title st
      = { st with attempts := st.attempts ++ [⟨mp3s, root, title, false⟩] } := by
  unfold attemptMerge
  rw [h]
  rfl

/-- Claim C1: for every visited directory not yet in ProcessedBooks, with
no cd-prefixed child, directly containing two or more `.mp3` files, the
scan forms a merge job over exactly those files; and the originals are all
deleted and the base name is mapped to true in ProcessedBooks if and only
if the external merge step reports success.  The `hfresh` hypothesis -
the inputs are not already on the deletion log - holds of any real run,
where files still on disk have not been deleted. -/
theorem C1_flat_merge_iff_success (ok : Oracle) (parent : Path)
    (name : String) (files : List String) (subs : List FsDir)
    (st : ScanState)
    (hmem : dictMem st.processed name = false)
    (hcd : (subs.filter isCdDir).isEmpty = true)
    (hn : 1 < (flatMp3s (parent ++ [name]) files).length)
    (hfresh : ∀ p ∈ flatMp3s (parent ++ [name]) files, p ∉ st.deleted) :
    (⟨flatMp3s (parent ++ [name]) files, parent ++ [name], name,
        ok (flatMp3s (parent ++ [name]) files) (parent ++ [name]) name⟩ :
      MergeAttempt) ∈ (scanDir ok parent (.node name files subs) st).attempts ∧
    (((∀ p ∈ flatMp3s (parent ++ [name]) files,
          p ∈ (scanDir ok parent (.node name files subs) st).deleted) ∧
        (scanDir ok parent (.node name files subs) st).processed.lookup name
          = some true) ↔
      ok (flatMp3s (parent ++ [name]) files) (parent ++ [name]) name
        = true) := by
  have hv1 : (visitDir ok parent (.node name files subs) st).1
      = attemptMerge ok (flatMp3s (parent ++ [name]) files)
          (parent ++ [name]) name st := by
    unfold visitDir
    simp only [hmem, Bool.false_eq_true, if_false, hcd, if_true, hn]
  have hv2 : (visitDir ok parent (.node name files subs) st).2 = false := by
    unfold visitDir
    simp only [hmem, Bool.false_eq_true, if_false, hcd, if_true, hn]
  have hres : scanDir ok parent (.node name files subs) st
      = scanList ok (parent ++ [name]) subs
          (attemptMerge ok (flatMp3s (parent ++ [name]) files)
            (parent ++ [name]) name st) := by
    unfold scanDir
    simp only [hv2, Bool.false_eq_true, if_false, hv1]
  constructor
  · have h1 : (⟨flatMp3s (parent ++ [name]) files, parent ++ [name], name,
        ok (flatMp3s (parent ++ [name]) files) (parent ++ [name]) name⟩ :
          MergeAttempt)
        ∈ (attemptMerge ok (flatMp3s (parent ++ [name]) files)
            (parent ++ [name]) name st).attempts := by
      rw [attempts_attemptMerge]
      simp
    rw [hres]
    exact (pres_scanList ok (parent ++ [name]) subs _).2.1 _ h1
  · constructor
    · rintro ⟨hdel, -⟩
      by_contra hok
      have hokf : ok (flatMp3s (parent ++ [name]) files) (parent ++ [name])
          name = false := Bool.eq_false_iff.mpr hok
      have hD : (attemptMerge ok (flatMp3s (parent ++ [name]) files)
          (parent ++ [name]) name st).deleted = st.deleted := by
        rw [attemptMerge_failure_state _ _ _ _ _ hokf]
      have hpos : flatMp3s (parent ++ [name]) files ≠ [] := by
        intro hnil
        rw [hnil] at hn
        simp at hn
      obtain ⟨p₀, hp₀⟩ := List.exists_mem_of_ne_nil _ hpos
      have hp₀' : p₀ ∈ (files.filter (fun f => strEndsWith f ".mp3")).map
          (fun f => (parent ++ [name]) ++ [f]) := hp₀
      obtain ⟨f, -, hpf⟩ := List.mem_map.mp hp₀'
      have hp₀len : p₀.length = (parent ++ [name]).length + 1 := by
        rw [← hpf]
        simp
      have hmem₀ := hdel p₀ hp₀
      rw [hres] at hmem₀
      cases deleted_scanList ok (parent ++ [name]) subs _ p₀ hmem₀ with
      | inl h' =>
        rw [hD] at h'
        exact hfresh p₀ hp₀ h'
      | inr h' => omega
    · intro hok
      have hS := attemptMerge_success_state ok
        (flatMp3s (parent ++ [name]) files) (parent ++ [name]) name st hok
      have hP : (attemptMerge ok (flatMp3s (parent ++ [name]) files)
          (parent ++ [name]) name st).processed.lookup name = some true := by
        rw [hS]
        simp only [dictSet_fresh true hmem, lookup_append,
          dictMem_false_lookup hmem]
        simp [List.lookup]
      constructor
      · intro p hp
        rw [hres]
        refine (pres_scanList ok (parent ++ [name]) subs _).1 p ?_
        rw [hS]
        exact List.mem_append_right _ hp
      · rw [hres]
        exact (pres_scanList ok (parent ++ [name]) subs _).2.2 name true hP

/-- Claim C1, witness: the spec's end-to-end scenario - `books/Alpha` with
`track1.mp3`, `track2.mp3` and a succeeding tool - forms the job and, by
the equivalence, both tracks are deleted and `Alpha ↦ true` is recorded. -/
theorem C1_flat_merge_witness :
    (⟨flatMp3s (["books"] ++ ["Alpha"]) ["track1.mp3", "track2.mp3"],
        ["books"] ++ ["Alpha"], "Alpha",
        (fun _ _ _ => true)
          (flatMp3s (["books"] ++ ["Alpha"]) ["track1.mp3", "track2.mp3"])
          (["books"] ++ ["Alpha"]) "Alpha"⟩ : MergeAttempt)
      ∈ (scanDir (fun _ _ _ => true) ["books"]
          (.node "Alpha" ["track1.mp3", "track2.mp3"] [])
          ⟨[], [], []⟩).attempts ∧
    (((∀ p ∈ flatMp3s (["books"] ++ ["Alpha"]) ["track1.mp3", "track2.mp3"],
          p ∈ (scanDir (fun _ _ _ => true) ["books"]
              (.node "Alpha" ["track1.mp3", "track2.mp3"] [])
              ⟨[], [], []⟩).deleted) ∧
        (scanDir (fun _ _ _ => true) ["books"]
            (.node "Alpha" ["track1.mp3", "track2.mp3"] [])
            ⟨[], [], []⟩).processed.lookup "Alpha" = some true) ↔
      (fun _ _ _ => true)
          (flatMp3s (["books"] ++ ["Alpha"]) ["track1.mp3", "track2.mp3"])
          (["books"] ++ ["Alpha"]) "Alpha" = true) :=
  C1_flat_merge_iff_success (fun _ _ _ => true) ["books"] "Alpha"
    ["track1.mp3", "track2.mp3"] [] ⟨[], [], []⟩
    (by decide) (by decide) (by decide) (by decide)

end Mp3Merge
